import Mathlib

/-!
Verification of the bar-robot core (`app.py`, `hardware.py`).

Python floats are modelled as exact rationals (`ℚ`); every concrete value
appearing in the claims (multiples of 0.25, 1.5, …) is exactly representable
in binary64, so the rational model agrees with the Python float semantics on
the inputs used here.  Python code that can raise an exception is modelled
with `Option`: `none` means the Python function raises.  Strings are
processed as `List Char`, matching Python's character-by-character regex
scanning (the repository only ever feeds ASCII measure text to the parser).
-/

namespace BarRobot

/- ────────────────────────────────────────────────────────────────────
   Arithmetic helpers (Python built-ins used by app.py)
   ──────────────────────────────────────────────────────────────────── -/

/-- Python `round(x)` (no digits argument): round half to even (banker's
rounding), as applied by `round(qty)` in `make_drink` (app.py line 355). -/
def roundHalfEven (q : ℚ) : ℤ :=
  if q - ⌊q⌋ < 1/2 then ⌊q⌋
  else if 1/2 < q - ⌊q⌋ then ⌊q⌋ + 1
  else if 2 ∣ ⌊q⌋ then ⌊q⌋ else ⌊q⌋ + 1

/-- Python `round(x, 2)`: round to 2 decimal places, half to even. -/
def round2 (q : ℚ) : ℚ :=
  (roundHalfEven (q * 100) : ℚ) / 100

/-- Model of `app.py` `_nearest_multiple(value, step)` (lines 114-120):
`math.floor((value / step) + 0.5) * step`. -/
def nearest_multiple (value step : ℚ) : ℚ :=
  (⌊value / step + 1/2⌋ : ℚ) * step

/- ────────────────────────────────────────────────────────────────────
   Data model
   ──────────────────────────────────────────────────────────────────── -/

/-- One entry of a recipe's `ingredients` list:
`{"item": ..., "qty_oz": ..., "raw": ...}` (app.py lines 213-217). -/
structure IngredientLine where
  item : String
  qty_oz : ℚ
  raw : String
deriving DecidableEq, Repr

/-- The bottle configuration as produced by `load_config` (app.py lines
153-166): 12 slots (`none` = empty slot), pantry, one-level substitutions
dict (modelled as an association list), safe-mode flag, shot size. -/
structure BottleConfig where
  shot_size : ℚ
  slots : List (Option String)
  pantry : List String
  substitutions : List (String × String)
  safe_mode : Bool
deriving DecidableEq, Repr

/- ────────────────────────────────────────────────────────────────────
   Quantity scaler (app.py `_scale`, `scale_for_slots`)
   ──────────────────────────────────────────────────────────────────── -/

/-- Python `min` folded over a non-empty list: `listMin a l = min(a :: l)`. -/
def listMin (a : ℚ) : List ℚ → ℚ
  | [] => a
  | b :: t => listMin (min a b) t

/-- Python `max` folded over a non-empty list: `listMax a l = max(a :: l)`. -/
def listMax (a : ℚ) : List ℚ → ℚ
  | [] => a
  | b :: t => listMax (max a b) t

/-- The per-entry update performed by the loop body of `_scale`
(app.py lines 109-111), with `factor = 1.5 / m`. -/
def normEntry (m : ℚ) (d : IngredientLine) : IngredientLine :=
  if 0 < d.qty_oz then { d with qty_oz := round2 (d.qty_oz * (3/2 / m)) } else d

/-- Model of `app.py` `_scale(lst)` (lines 97-112): scale liquid ingredients so the
smallest non-zero `qty_oz` becomes 1.5; garnishes (`qty_oz == 0`) are left
untouched.  (The Python code mutates the list in place and returns it; we
model the returned value.) -/
def scaleList (lst : List IngredientLine) : List IngredientLine :=
  match (lst.filter fun d => decide (0 < d.qty_oz)).map (fun d => d.qty_oz) with
  | [] => lst
  | q :: qs => lst.map (normEntry (listMin q qs))

/-- The value `target = _nearest_multiple(anchor_qty, shot)` with the
`if target == 0: target = shot` safety guard (app.py lines 134-136). -/
def slotTarget (shot anchor : ℚ) : ℚ :=
  if nearest_multiple anchor shot = 0 then shot else nearest_multiple anchor shot

/-- The per-entry update of the loop of `scale_for_slots` (app.py lines
141-148): apply `base_factor = target / anchor` to every positive quantity,
snap slot liquids to the nearest shot multiple, round to 2 decimals;
non-positive entries are copied unchanged. -/
def slotScaled (slots : List (Option String)) (shot anchor : ℚ) (d : IngredientLine) :
    IngredientLine :=
  if 0 < d.qty_oz then
    let q := d.qty_oz * (slotTarget shot anchor / anchor)
    { d with qty_oz := round2 (if some d.item ∈ slots then nearest_multiple q shot else q) }
  else d

/-- Model of `app.py` `scale_for_slots(recipe, cfg)` (lines 122-150), applied to the
recipe's ingredient list.  Slot liquids are the entries whose `item`
occupies a slot and whose quantity is positive; if there are none the list
is returned unchanged, otherwise the anchor is their largest quantity. -/
def scale_for_slots (items : List IngredientLine) (cfg : BottleConfig) :
    List IngredientLine :=
  match (items.filter fun d =>
      decide (some d.item ∈ cfg.slots) && decide (0 < d.qty_oz)) with
  | [] => items
  | a :: rest =>
    items.map (slotScaled cfg.slots cfg.shot_size (listMax a.qty_oz (rest.map fun d => d.qty_oz)))

/- ────────────────────────────────────────────────────────────────────
   Availability helpers (app.py `_avail`, `_slot_for`)
   ──────────────────────────────────────────────────────────────────── -/

/-- Python `str.lower` (ASCII). -/
def pyLower (s : String) : String := String.mk (s.data.map Char.toLower)

/-- Python `list.index` for an element known to be present (first index;
returns the list length when absent, which the callers never rely on). -/
def idxOf (a : Option String) : List (Option String) → Nat
  | [] => 0
  | b :: t => if a = b then 0 else idxOf a t + 1

/-- Model of `app.py` `_avail(item, cfg)` (lines 237-242): the item (lowercased) is in
a slot or the pantry, or has a substitution whose target is; Python's
`bool(sub and ...)` makes an empty-string substitution target falsy. -/
def avail (item : String) (cfg : BottleConfig) : Bool :=
  let it := pyLower item
  if some it ∈ cfg.slots ∨ it ∈ cfg.pantry then true
  else
    match cfg.substitutions.lookup it with
    | none => false
    | some sub => decide (sub ≠ "") && (decide (some sub ∈ cfg.slots) || decide (sub ∈ cfg.pantry))

/-- Model of `app.py` `_slot_for(item, cfg)` (lines 244-251): slot index of the item,
else of its substitution target, else `none` (pantry / manual add). -/
def slot_for (item : String) (cfg : BottleConfig) : Option Nat :=
  let it := pyLower item
  if some it ∈ cfg.slots then some (idxOf (some it) cfg.slots)
  else
    match cfg.substitutions.lookup it with
    | none => none
    | some sub =>
      if sub ≠ "" ∧ some sub ∈ cfg.slots then some (idxOf (some sub) cfg.slots) else none

/- ────────────────────────────────────────────────────────────────────
   Measurement parser (app.py `_qty_to_oz`, lines 57-95)
   ──────────────────────────────────────────────────────────────────── -/

/-- Python `\s` (ASCII whitespace classes). -/
def isPySpace (c : Char) : Bool :=
  c = ' ' || c = '\t' || c = '\n' || c = '\r' || c = '\x0b' || c = '\x0c'

/-- Python `str.strip()` on the character list. -/
def trimL (cs : List Char) : List Char :=
  ((cs.dropWhile isPySpace).reverse.dropWhile isPySpace).reverse

/-- Does `needle` occur at the start of `hay`? -/
def startsWithL : List Char → List Char → Bool
  | [], _ => true
  | _ :: _, [] => false
  | a :: as, b :: bs => a = b && startsWithL as bs

/-- Python `needle in hay` (substring containment). -/
def containsSub (needle : List Char) : List Char → Bool
  | [] => startsWithL needle []
  | c :: cs => startsWithL needle (c :: cs) || containsSub needle cs

/-- The garnish keywords skipped by `_qty_to_oz` (app.py lines 69-70). -/
def garnishWords : List (List Char) :=
  ["slice".data, "wedge".data, "dash".data, "pinch".data,
   "sprig".data, "piece".data, "cube".data, "twist".data]

/-- Value of a non-empty digit string. -/
def digitsToNat (ds : List Char) : Nat :=
  ds.foldl (fun n c => 10 * n + (c.toNat - 48)) 0

/-- The unit alternation `(oz|ounce|ounces|ml|cl)`, in Python's
left-to-right alternation order. -/
def unitAlts : List (List Char) :=
  ["oz".data, "ounce".data, "ounces".data, "ml".data, "cl".data]

/-- Try the unit alternation at the current position (regex alternation
order: first alternative that matches wins). -/
def matchUnit (cs : List Char) : Option (List Char) :=
  unitAlts.findSome? (fun u => if startsWithL u cs then some u else none)

/-- Model of `re.search(r"(oz|ounce|ounces|ml|cl)", txt)`: leftmost match position,
alternation order within a position. -/
def findUnit : List Char → Option (List Char)
  | [] => none
  | c :: cs =>
    match matchUnit (c :: cs) with
    | some u => some u
    | none => findUnit cs

/-- Model of `re.match(r"(\d+)\s+(\d)/(\d)", txt)` (app.py line 74): whole part,
numerator digit, denominator digit of a mixed fraction such as `2 1/2`. -/
def mixedMatch (cs : List Char) : Option (Nat × Nat × Nat) :=
  match cs.span Char.isDigit with
  | ([], _) => none
  | (ds, rest) =>
    match rest.span isPySpace with
    | ([], _) => none
    | (_, rest2) =>
      match rest2 with
      | a :: s :: b :: _ =>
        if a.isDigit && s = '/' && b.isDigit then
          some (digitsToNat ds, a.toNat - 48, b.toNat - 48)
        else none
      | _ => none

/-- Numeric token recognised by the simple-number regex: either a simple
fraction `n/d` (kept unevaluated because Python divides lazily and may
raise `ZeroDivisionError`) or a decimal value. -/
inductive NumTok where
  | frTok (n d : Nat)
  | decTok (q : ℚ)
deriving DecidableEq, Repr

/-- Value of the decimal `ds.fs`. -/
def decValue (ds fs : List Char) : ℚ :=
  (digitsToNat ds : ℚ) + (digitsToNat fs : ℚ) / (10 : ℚ) ^ fs.length

/-- The `\s*(oz|ounce|ounces|ml|cl)?` tail of the simple-number regex. -/
def unitAfter (cs : List Char) : Option (List Char) :=
  matchUnit (cs.dropWhile isPySpace)

/-- Model of `re.match(r"(\d+/\d+|\d+(?:\.\d+)?)\s*(oz|ounce|ounces|ml|cl)?", txt)`
(app.py line 82): the numeric token and the optional unit group.  The
fraction alternative is tried first; if it fails (no digits after `/`) the
plain-number alternative matches just the leading digits, exactly as the
backtracking regex engine does. -/
def simpleMatch (cs : List Char) : Option (NumTok × Option (List Char)) :=
  match cs.span Char.isDigit with
  | ([], _) => none
  | (ds, rest) =>
    match rest with
    | '/' :: r2 =>
      match r2.span Char.isDigit with
      | ([], _) => some (NumTok.decTok (digitsToNat ds : ℚ), unitAfter rest)
      | (ds2, r3) => some (NumTok.frTok (digitsToNat ds) (digitsToNat ds2), unitAfter r3)
    | '.' :: r2 =>
      match r2.span Char.isDigit with
      | ([], _) => some (NumTok.decTok (digitsToNat ds : ℚ), unitAfter rest)
      | (fs, r3) => some (NumTok.decTok (decValue ds fs), unitAfter r3)
    | _ => some (NumTok.decTok (digitsToNat ds : ℚ), unitAfter rest)

/-- The unit conversion of `_qty_to_oz` (app.py lines 90-95):
`ml × 0.033814`, `cl × 0.33814`, anything else × 1. -/
def applyUnit (q : ℚ) (u : List Char) : ℚ :=
  if u = "ml".data then q * (33814 / 1000000)
  else if u = "cl".data then q * (33814 / 100000)
  else q

/-- Model of `app.py` `_qty_to_oz(raw)` (lines 57-95).  `none` models a raised
exception (Python `ZeroDivisionError` on a zero denominator); `some q`
models a normal return of `q` fluid ounces. -/
def qty_to_oz (raw : String) : Option ℚ :=
  if raw.data = [] then some 0
  else
    let txt := (trimL raw.data).map Char.toLower
    if garnishWords.any (fun w => containsSub w txt) then some 0
    else
      match mixedMatch txt with
      | some (whole, num, den) =>
        if den = 0 then none
        else
          some (round2 (applyUnit ((whole : ℚ) + (num : ℚ) / (den : ℚ))
            ((findUnit txt).getD "oz".data)))
      | none =>
        match simpleMatch txt with
        | none => some 0
        | some (NumTok.frTok n d, uo) =>
          if d = 0 then none
          else some (round2 (applyUnit ((n : ℚ) / (d : ℚ)) (uo.getD [])))
        | some (NumTok.decTok q, uo) => some (round2 (applyUnit q (uo.getD [])))

/- ────────────────────────────────────────────────────────────────────
   Hardware controller (hardware.py)
   ──────────────────────────────────────────────────────────────────── -/

/-- A raw GPIO backend operation (the physical side effects of
`hardware.py`; `cleanupAll` is `GPIO.cleanup()`). -/
inductive BackendOp where
  | setmode
  | setupPins (pins : List ℤ)
  | output (pin : ℤ) (level : Bool)
  | cleanupAll
deriving DecidableEq, Repr

/-- The module-level state of `hardware.py`: `_pin_map` (a dict, modelled
as an insertion-ordered association list), `SAFE_MODE`, `_current_slot`
and `_gpio_ready` (lines 51-63). -/
structure HWState where
  pin_map : List (String × ℤ)
  safe_mode : Bool
  current_slot : ℤ
  gpio_ready : Bool
deriving DecidableEq, Repr

/-- The initial `_pin_map` (hardware.py lines 51-56). -/
def defaultPinMap : List (String × ℤ) :=
  [("DIR", 20), ("STEP", 21), ("ENABLE", 16), ("ACTUATOR", 26)]

/-- The hardware module's state right after import (lines 51-63):
safe mode on, slot 0, GPIO not initialised. -/
def hwInit : HWState :=
  { pin_map := defaultPinMap, safe_mode := true, current_slot := 0, gpio_ready := false }

/-- Lookup `_pin_map[k]`: the keys used by the code are always present (the four
initial keys are never removed), so the default 0 is never reached. -/
def pinOf (m : List (String × ℤ)) (k : String) : ℤ :=
  (m.lookup k).getD 0

/-- The list `list(_pin_map.values())` (dict insertion order). -/
def pinValues (m : List (String × ℤ)) : List ℤ := m.map (fun p => p.2)

/-- Python `str.upper` (ASCII). -/
def pyUpper (s : String) : String := String.mk (s.data.map Char.toUpper)

/-- One step of Python `dict.update`: replace in place when the key exists,
append otherwise. -/
def updOne (m : List (String × ℤ)) (k : String) (v : ℤ) : List (String × ℤ) :=
  if m.any (fun p => p.1 = k) then m.map (fun p => if p.1 = k then (k, v) else p)
  else m ++ [(k, v)]

/-- Python `dict.update` over the new entries, in order. -/
def dictUpdate (m new : List (String × ℤ)) : List (String × ℤ) :=
  new.foldl (fun acc p => updOne acc p.1 p.2) m

/-- The constant `STEPS_PER_SLOT = int((200 * 8) / 12)` (hardware.py line 43). -/
def STEPS_PER_SLOT : ℤ := 133

/-- Model of `hardware.py` `_ensure_gpio()` (lines 87-95): no-op when already
initialised or in safe mode; otherwise set BCM mode, configure all mapped
pins as outputs, drive ENABLE low, and mark the GPIO as ready. -/
def ensure_gpio (s : HWState) : HWState × List BackendOp :=
  if s.gpio_ready || s.safe_mode then (s, [])
  else
    ({ s with gpio_ready := true },
     [BackendOp.setmode, BackendOp.setupPins (pinValues s.pin_map),
      BackendOp.output (pinOf s.pin_map "ENABLE") false])

/-- Model of `hardware.py` `cleanup()` (lines 98-101): if `_gpio_ready`, drive
ENABLE high and call `GPIO.cleanup()`.  Note that the code never clears
`_gpio_ready`. -/
def cleanup (s : HWState) : HWState × List BackendOp :=
  if s.gpio_ready then
    (s, [BackendOp.output (pinOf s.pin_map "ENABLE") true, BackendOp.cleanupAll])
  else (s, [])

/-- Model of `hardware.py` `set_pin_map(new_map)` (lines 68-81): tear down the GPIO
if it was initialised, then merge the (uppercased, non-empty-keyed)
entries into the pin map. -/
def set_pin_map (s : HWState) (new : List (String × ℤ)) : HWState × List BackendOp :=
  let torn := if s.gpio_ready then ({ s with gpio_ready := false }, [BackendOp.cleanupAll])
              else (s, ([] : List BackendOp))
  let merged := dictUpdate torn.1.pin_map
    ((new.filter fun p => decide (p.1 ≠ "")).map fun p => (pyUpper p.1, p.2))
  ({ torn.1 with pin_map := merged }, torn.2)

/-- Model of `hardware.py` `set_safe_mode(enabled)` (lines 107-110). -/
def set_safe_mode (s : HWState) (enabled : Bool) : HWState × List BackendOp :=
  ({ s with safe_mode := enabled }, [])

/-- Repeat a fixed backend pulse pattern `n` times. -/
def repList : Nat → List BackendOp → List BackendOp
  | 0, _ => []
  | n + 1, ops => ops ++ repList n ops

/-- Model of `hardware.py` `rotate_to_slot(slot)` (lines 113-138): no-op when
already there; in safe mode just update `_current_slot`; otherwise lazily
initialise the GPIO, drive DIR high and `delta * STEPS_PER_SLOT` step
pulses (each a high then a low write), then record the new slot. -/
def rotate_to_slot (s : HWState) (slot : ℤ) : HWState × List BackendOp :=
  if slot = s.current_slot then (s, [])
  else if s.safe_mode then ({ s with current_slot := slot }, [])
  else
    let e := ensure_gpio s
    let delta := (slot - e.1.current_slot) % 12
    let steps := (delta * STEPS_PER_SLOT).toNat
    ({ e.1 with current_slot := slot },
     e.2 ++ [BackendOp.output (pinOf e.1.pin_map "DIR") true] ++
       repList steps
         [BackendOp.output (pinOf e.1.pin_map "STEP") true,
          BackendOp.output (pinOf e.1.pin_map "STEP") false])

/-- Model of `hardware.py` `press_actuator(repetitions)` (lines 141-154): in safe
mode only log; otherwise lazily initialise the GPIO and press the actuator
pin high/low `repetitions` times. -/
def press_actuator (s : HWState) (reps : ℤ) : HWState × List BackendOp :=
  if s.safe_mode then (s, [])
  else
    let e := ensure_gpio s
    (e.1, e.2 ++ repList reps.toNat
      [BackendOp.output (pinOf e.1.pin_map "ACTUATOR") true,
       BackendOp.output (pinOf e.1.pin_map "ACTUATOR") false])

/-- A call into the hardware module's public API. -/
inductive HWCall where
  | rot (slot : ℤ)
  | press (reps : ℤ)
  | setPins (m : List (String × ℤ))
  | setSafe (b : Bool)
  | clean
deriving DecidableEq, Repr

/-- Interpret one API call. -/
def step1 (s : HWState) : HWCall → HWState × List BackendOp
  | HWCall.rot slot => rotate_to_slot s slot
  | HWCall.press reps => press_actuator s reps
  | HWCall.setPins m => set_pin_map s m
  | HWCall.setSafe b => set_safe_mode s b
  | HWCall.clean => cleanup s

/-- Run a sequence of API calls, accumulating the backend trace. -/
def runCalls (s : HWState) : List HWCall → HWState × List BackendOp
  | [] => (s, [])
  | c :: cs =>
    ((runCalls (step1 s c).1 cs).1, (step1 s c).2 ++ (runCalls (step1 s c).1 cs).2)

/-- Is the call one of the two motion operations
(`rotate_to_slot` / `press_actuator`)? -/
def isMotion : HWCall → Bool
  | HWCall.rot _ => true
  | HWCall.press _ => true
  | _ => false

/-- Does the call keep rotation targets inside the physical slot range
`[0, 12)`?  (Non-rotation calls trivially do.) -/
def rotInRange : HWCall → Bool
  | HWCall.rot slot => decide (0 ≤ slot) && decide (slot < 12)
  | _ => true

/- ────────────────────────────────────────────────────────────────────
   Dispense loop (app.py `make_drink`, lines 341-360)
   ──────────────────────────────────────────────────────────────────── -/

/-- User-visible dispense events: the `flash` messages and hardware calls
emitted by the ingredient loop of `make_drink`, in order. -/
inductive Ev where
  | missingIng (item : String)
  | pulling (item : String)
  | adding (item : String)
  | rotate (slot : Nat)
  | dispensing (qty : ℚ)
  | press (reps : ℤ)
  | manualAdd (qty : ℚ) (item : String)
  | ready
deriving DecidableEq, Repr

/-- The ingredient loop of `make_drink` (app.py lines 341-360), from index
`idx`: abort with a missing-ingredient message on the first unavailable
item; otherwise narrate (`Pulling` for index 0, `Adding` later), rotate
and press `round(qty)` times when a slot resolves, or ask for a manual
pantry add; finish with the ready message. -/
def dispenseFrom (cfg : BottleConfig) : Nat → List IngredientLine → List Ev
  | _, [] => [Ev.ready]
  | idx, d :: rest =>
    if avail d.item cfg then
      ((if idx = 0 then Ev.pulling d.item else Ev.adding d.item) ::
        (match slot_for d.item cfg with
         | some s => [Ev.rotate s, Ev.dispensing d.qty_oz, Ev.press (roundHalfEven d.qty_oz)]
         | none => [Ev.manualAdd d.qty_oz d.item])) ++ dispenseFrom cfg (idx + 1) rest
    else [Ev.missingIng d.item]

/-- The event sequence of one `make_drink` run over a recipe's
ingredient list. -/
def make_drink_events (cfg : BottleConfig) (ings : List IngredientLine) : List Ev :=
  dispenseFrom cfg 0 ings

/- ────────────────────────────────────────────────────────────────────
   Concrete instances used by the end-to-end claims and witnesses
   ──────────────────────────────────────────────────────────────────── -/

/-- The end-to-end example recipe: gin 2.0 oz, vermouth 0.5 oz. -/
def ginRecipe : List IngredientLine :=
  [⟨"gin", 2, "2 oz"⟩, ⟨"vermouth", 1/2, "1/2 oz"⟩]

/-- The same recipe after `_scale` (min 0.5 → factor 3). -/
def ginRecipeScaled : List IngredientLine :=
  [⟨"gin", 6, "2 oz"⟩, ⟨"vermouth", 3/2, "1/2 oz"⟩]

/-- A configuration with gin in slot 0, vermouth in the pantry,
`shot_size = 1.5`, safe mode on. -/
def ginConfig : BottleConfig :=
  { shot_size := 3/2
    slots := [some "gin", none, none, none, none, none,
              none, none, none, none, none, none]
    pantry := ["vermouth"]
    substitutions := []
    safe_mode := true }

/-- Like `ginConfig` but with a substitution mapping `dry vermouth` to the
pantry item `vermouth` (used for the substitution-resolution witness). -/
def subConfig : BottleConfig :=
  { shot_size := 3/2
    slots := [some "gin", none, none, none, none, none,
              none, none, none, none, none, none]
    pantry := ["vermouth"]
    substitutions := [("dry vermouth", "vermouth")]
    safe_mode := true }

/- ────────────────────────────────────────────────────────────────────
   Helper lemmas: Python rounding
   ──────────────────────────────────────────────────────────────────── -/

theorem rhe_ge (q : ℚ) : q - 1/2 ≤ (roundHalfEven q : ℚ) := by
  have h1 : (⌊q⌋ : ℚ) ≤ q := Int.floor_le q
  have h2 : q < ⌊q⌋ + 1 := Int.lt_floor_add_one q
  unfold roundHalfEven
  split_ifs with ha hb hc <;> push_cast <;> linarith

theorem rhe_le (q : ℚ) : (roundHalfEven q : ℚ) ≤ q + 1/2 := by
  have h1 : (⌊q⌋ : ℚ) ≤ q := Int.floor_le q
  have h2 : q < ⌊q⌋ + 1 := Int.lt_floor_add_one q
  unfold roundHalfEven
  split_ifs with ha hb hc <;> push_cast <;> linarith

theorem rhe_mono {x y : ℚ} (h : x ≤ y) : roundHalfEven x ≤ roundHalfEven y := by
  rcases eq_or_lt_of_le h with rfl | hlt
  · exact le_refl _
  · have h1 := rhe_le x
    have h2 := rhe_ge y
    have h3 : (roundHalfEven x : ℚ) < (roundHalfEven y : ℚ) + 1 := by linarith
    exact Int.lt_add_one_iff.mp (by exact_mod_cast h3)

theorem rhe_int (n : ℤ) : roundHalfEven (n : ℚ) = n := by
  unfold roundHalfEven
  rw [Int.floor_intCast]
  norm_num

theorem rhe_small {q : ℚ} (h0 : 0 ≤ q) (h1 : q < 1/2) : roundHalfEven q = 0 := by
  have hf : ⌊q⌋ = 0 := Int.floor_eq_zero_iff.mpr (Set.mem_Ico.mpr ⟨h0, by linarith⟩)
  unfold roundHalfEven
  rw [hf]
  rw [if_pos (by push_cast; linarith : q - ((0:ℤ):ℚ) < 1/2)]

theorem rhe_eval_lo (q : ℚ) (n : ℤ) (h1 : (n:ℚ) ≤ q) (h2 : q < (n:ℚ) + 1/2) :
    roundHalfEven q = n := by
  have hf : ⌊q⌋ = n := Int.floor_eq_iff.mpr ⟨h1, by linarith⟩
  unfold roundHalfEven
  rw [hf, if_pos (by linarith : q - (n:ℚ) < 1/2)]

theorem rhe_eval_hi (q : ℚ) (n : ℤ) (h1 : (n:ℚ) + 1/2 < q) (h2 : q < (n:ℚ) + 1) :
    roundHalfEven q = n + 1 := by
  have hf : ⌊q⌋ = n := Int.floor_eq_iff.mpr ⟨by linarith, h2⟩
  unfold roundHalfEven
  rw [hf, if_neg (by linarith : ¬ (q - (n:ℚ) < 1/2)),
    if_pos (by linarith : (1:ℚ)/2 < q - (n:ℚ))]

theorem rhe_eval_tie_even (q : ℚ) (n : ℤ) (h1 : q = (n:ℚ) + 1/2) (h2 : (2:ℤ) ∣ n) :
    roundHalfEven q = n := by
  have hf : ⌊q⌋ = n := Int.floor_eq_iff.mpr ⟨by rw [h1]; linarith, by rw [h1]; linarith⟩
  unfold roundHalfEven
  rw [hf, if_neg (by rw [h1]; norm_num : ¬ (q - (n:ℚ) < 1/2)),
    if_neg (by rw [h1]; norm_num : ¬ ((1:ℚ)/2 < q - (n:ℚ))), if_pos h2]

theorem rhe_eval_tie_odd (q : ℚ) (n : ℤ) (h1 : q = (n:ℚ) + 1/2) (h2 : ¬ (2:ℤ) ∣ n) :
    roundHalfEven q = n + 1 := by
  have hf : ⌊q⌋ = n := Int.floor_eq_iff.mpr ⟨by rw [h1]; linarith, by rw [h1]; linarith⟩
  unfold roundHalfEven
  rw [hf, if_neg (by rw [h1]; norm_num : ¬ (q - (n:ℚ) < 1/2)),
    if_neg (by rw [h1]; norm_num : ¬ ((1:ℚ)/2 < q - (n:ℚ))), if_neg h2]

theorem round2_err (q : ℚ) : |round2 q - q| ≤ 1/200 := by
  have h1 := rhe_le (q * 100)
  have h2 := rhe_ge (q * 100)
  rw [abs_le, round2]
  constructor <;> linarith

theorem round2_mono {x y : ℚ} (h : x ≤ y) : round2 x ≤ round2 y := by
  have hm := rhe_mono (by linarith : x * 100 ≤ y * 100)
  rw [round2, round2]
  have h100 : (0:ℚ) < 100 := by norm_num
  exact (div_le_div_iff_of_pos_right h100).mpr (by exact_mod_cast hm)

theorem round2_exact (q : ℚ) (n : ℤ) (h : q * 100 = (n:ℚ)) : round2 q = q := by
  rw [round2, h, rhe_int]
  linarith

theorem nearest_multiple_eval (v s c : ℚ) (n : ℤ) (h1 : v / s + 1/2 = c)
    (h2 : (n:ℚ) ≤ c) (h3 : c < (n:ℚ) + 1) (r : ℚ) (hr : (n:ℚ) * s = r) :
    nearest_multiple v s = r := by
  rw [nearest_multiple, h1, Int.floor_eq_iff.mpr ⟨h2, h3⟩, hr]

/- ────────────────────────────────────────────────────────────────────
   Helper lemmas: Python min/max over non-empty lists
   ──────────────────────────────────────────────────────────────────── -/

theorem listMin_le_init (a : ℚ) (l : List ℚ) : listMin a l ≤ a := by
  induction l generalizing a with
  | nil => exact le_refl _
  | cons b t ih =>
    calc listMin a (b :: t) = listMin (min a b) t := rfl
    _ ≤ min a b := ih _
    _ ≤ a := min_le_left _ _

theorem listMin_le_mem (a x : ℚ) (l : List ℚ) (hx : x ∈ l) : listMin a l ≤ x := by
  induction l generalizing a with
  | nil => cases hx
  | cons b t ih =>
    rcases List.mem_cons.mp hx with rfl | hx'
    · calc listMin a (x :: t) = listMin (min a x) t := rfl
      _ ≤ min a x := listMin_le_init _ _
      _ ≤ x := min_le_right _ _
    · exact ih _ hx'

theorem listMin_mem (a : ℚ) (l : List ℚ) : listMin a l = a ∨ listMin a l ∈ l := by
  induction l generalizing a with
  | nil => left; rfl
  | cons b t ih =>
    have hstep : listMin a (b :: t) = listMin (min a b) t := rfl
    rcases ih (min a b) with h | h
    · rcases le_total a b with hab | hab
      · left; rw [hstep, h, min_eq_left hab]
      · right; rw [hstep, h, min_eq_right hab]; exact List.mem_cons_self b t
    · right; rw [hstep]; exact List.mem_cons_of_mem _ h

theorem listMax_init_le (a : ℚ) (l : List ℚ) : a ≤ listMax a l := by
  induction l generalizing a with
  | nil => exact le_refl _
  | cons b t ih =>
    calc a ≤ max a b := le_max_left _ _
    _ ≤ listMax (max a b) t := ih _
    _ = listMax a (b :: t) := rfl

theorem listMax_mem_le (a x : ℚ) (l : List ℚ) (hx : x ∈ l) : x ≤ listMax a l := by
  induction l generalizing a with
  | nil => cases hx
  | cons b t ih =>
    rcases List.mem_cons.mp hx with rfl | hx'
    · calc x ≤ max a x := le_max_right _ _
      _ ≤ listMax (max a x) t := listMax_init_le _ _
      _ = listMax a (x :: t) := rfl
    · exact ih _ hx'

theorem listMax_mem (a : ℚ) (l : List ℚ) : listMax a l = a ∨ listMax a l ∈ l := by
  induction l generalizing a with
  | nil => left; rfl
  | cons b t ih =>
    have hstep : listMax a (b :: t) = listMax (max a b) t := rfl
    rcases ih (max a b) with h | h
    · rcases le_total a b with hab | hab
      · right; rw [hstep, h, max_eq_right hab]; exact List.mem_cons_self b t
      · left; rw [hstep, h, max_eq_left hab]
    · right; rw [hstep]; exact List.mem_cons_of_mem _ h

/- ────────────────────────────────────────────────────────────────────
   Helper lemmas: concrete evaluations shared by the end-to-end results
   ──────────────────────────────────────────────────────────────────── -/

theorem round2_six : round2 6 = 6 := round2_exact 6 600 (by norm_num)

theorem round2_three_half : round2 (3/2) = 3/2 := round2_exact (3/2) 150 (by norm_num)

theorem nm_six_shot : nearest_multiple 6 (3/2) = 6 :=
  nearest_multiple_eval 6 (3/2) (9/2) 4 (by norm_num) (by norm_num) (by norm_num) 6
    (by norm_num)

theorem rhe_six : roundHalfEven 6 = 6 := by
  rw [show (6:ℚ) = ((6:ℤ):ℚ) by norm_num, rhe_int]

theorem scaleList_gin : scaleList ginRecipe = ginRecipeScaled := by
  norm_num [scaleList, ginRecipe, ginRecipeScaled, listMin, normEntry, min_def,
    round2_six, round2_three_half]

theorem scale_for_slots_gin : scale_for_slots ginRecipeScaled ginConfig = ginRecipeScaled := by
  norm_num [scale_for_slots, ginRecipeScaled, ginConfig, listMax, slotScaled, slotTarget,
    nm_six_shot, round2_six, round2_three_half, show "vermouth" ≠ "gin" by decide,
    show (some "vermouth" : Option String) ≠ none by decide]

theorem events_gin : make_drink_events ginConfig ginRecipeScaled =
    [Ev.pulling "gin", Ev.rotate 0, Ev.dispensing 6, Ev.press 6,
     Ev.adding "vermouth", Ev.manualAdd (3/2) "vermouth", Ev.ready] := by
  have ha1 : avail "gin" ginConfig = true := by decide
  have hs1 : slot_for "gin" ginConfig = some 0 := by decide
  have ha2 : avail "vermouth" ginConfig = true := by decide
  have hs2 : slot_for "vermouth" ginConfig = none := by decide
  simp [make_drink_events, dispenseFrom, ginRecipeScaled, ha1, hs1, ha2, hs2, rhe_six]

/- ────────────────────────────────────────────────────────────────────
   Claim theorems
   ──────────────────────────────────────────────────────────────────── -/

/-- C1: the claim (like the spec and the function's own docstring) says an
exact half-step tie resolves to the LOWER multiple, in particular
`nearest_multiple(2.25, 1.5) == 1.5`.  The implementation
`floor(value/step + 0.5) * step` rounds the tie UP: on the tie input
`value = 2.25, step = 1.5` it returns `3.0`, not `1.5`.  The two non-tie
examples (`2.99 → 3.0`, `3.76 → 4.5`) do hold. -/
theorem nearest_multiple_tie_rounds_up :
    nearest_multiple (9/4) (3/2) = 3 ∧ (3 : ℚ) ≠ 3/2 ∧
    nearest_multiple (299/100) (3/2) = 3 ∧ nearest_multiple (94/25) (3/2) = 9/2 := by
  refine ⟨?_, by norm_num, ?_, ?_⟩
  · exact nearest_multiple_eval (9/4) (3/2) 2 2 (by norm_num) (by norm_num) (by norm_num)
      3 (by norm_num)
  · exact nearest_multiple_eval (299/100) (3/2) (187/75) 2 (by norm_num) (by norm_num)
      (by norm_num) 3 (by norm_num)
  · exact nearest_multiple_eval (94/25) (3/2) (451/150) 3 (by norm_num) (by norm_num)
      (by norm_num) (9/2) (by norm_num)

/-- C2 counterexample: on the end-to-end example (gin 2.0 oz in a slot,
vermouth 0.5 oz in the pantry, shot 1.5), normalization gives gin 6.0 /
vermouth 1.5 and the slot-aware rescale leaves them unchanged, but
`make_drink` presses the actuator `round(6.0) = 6` times for gin — there is
no 4-press event, so the claimed "4 presses = number of shot_size shots"
is false. -/
theorem make_drink_press_count_cex :
    scaleList ginRecipe = ginRecipeScaled ∧
    scale_for_slots ginRecipeScaled ginConfig = ginRecipeScaled ∧
    Ev.press 6 ∈ make_drink_events ginConfig ginRecipeScaled ∧
    Ev.press 4 ∉ make_drink_events ginConfig ginRecipeScaled := by
  refine ⟨scaleList_gin, scale_for_slots_gin, ?_, ?_⟩ <;> rw [events_gin] <;> decide

/-- C2 (amended): for the recipe [gin 2.0 oz, vermouth 0.5 oz] with gin in
slot 0 and shot_size 1.5, normalization yields gin 6.0 / vermouth 1.5,
slot-aware rescaling leaves them unchanged, and the dispense sequence
rotates to gin's slot and presses the actuator exactly `round(qty_oz) = 6`
times for gin (one press per ounce, not per shot). -/
theorem make_drink_end_to_end :
    scaleList ginRecipe = ginRecipeScaled ∧
    scale_for_slots ginRecipeScaled ginConfig = ginRecipeScaled ∧
    make_drink_events ginConfig ginRecipeScaled =
      [Ev.pulling "gin", Ev.rotate 0, Ev.dispensing 6, Ev.press 6,
       Ev.adding "vermouth", Ev.manualAdd (3/2) "vermouth", Ev.ready] ∧
    roundHalfEven (6 : ℚ) = 6 :=
  ⟨scaleList_gin, scale_for_slots_gin, events_gin, rhe_six⟩

/-- Helper: a motion call (`rotate_to_slot`/`press_actuator`) executed in
safe mode with the GPIO uninitialised produces no backend operation and
leaves both flags unchanged. -/
theorem step1_motion_safe (s : HWState) (c : HWCall) (hsafe : s.safe_mode = true)
    (hready : s.gpio_ready = false) (hc : isMotion c = true) :
    (step1 s c).2 = [] ∧ (step1 s c).1.safe_mode = true ∧
      (step1 s c).1.gpio_ready = false := by
  cases c with
  | rot slot =>
    simp only [step1, rotate_to_slot, hsafe]
    split_ifs with h1
    · exact ⟨rfl, hsafe, hready⟩
    · exact ⟨rfl, rfl, hready⟩
  | press reps =>
    simp only [step1, press_actuator, hsafe]
    exact ⟨rfl, hsafe, hready⟩
  | setPins m => simp [isMotion] at hc
  | setSafe b => simp [isMotion] at hc
  | clean => simp [isMotion] at hc

/-- C3: for every sequence of `rotate_to_slot`/`press_actuator` calls
starting in safe mode with the hardware uninitialised, the backend trace is
empty (no GPIO setup, no step pulse, no actuator write) and the GPIO is
never initialised. -/
theorem safe_mode_no_drive (s : HWState) (calls : List HWCall)
    (hsafe : s.safe_mode = true) (hready : s.gpio_ready = false)
    (hcalls : ∀ c ∈ calls, isMotion c = true) :
    (runCalls s calls).2 = [] ∧ (runCalls s calls).1.gpio_ready = false := by
  induction calls generalizing s with
  | nil => exact ⟨rfl, hready⟩
  | cons c cs ih =>
    obtain ⟨h1, h2, h3⟩ :=
      step1_motion_safe s c hsafe hready (hcalls c (List.mem_cons_self c cs))
    obtain ⟨ih1, ih2⟩ :=
      ih (step1 s c).1 h2 h3 (fun c' hc' => hcalls c' (List.mem_cons_of_mem _ hc'))
    refine ⟨?_, ih2⟩
    show (step1 s c).2 ++ (runCalls (step1 s c).1 cs).2 = []
    rw [h1, ih1]
    rfl

/-- C3 witness: a concrete safe-mode rotate-then-press run from the initial
state produces no backend operation and leaves the GPIO uninitialised. -/
theorem safe_mode_no_drive_witness :
    hwInit.safe_mode = true ∧ hwInit.gpio_ready = false ∧
    (∀ c ∈ [HWCall.rot 3, HWCall.press 2], isMotion c = true) ∧
    (runCalls hwInit [HWCall.rot 3, HWCall.press 2]).2 = [] ∧
    (runCalls hwInit [HWCall.rot 3, HWCall.press 2]).1.gpio_ready = false :=
  ⟨rfl, rfl, by decide,
    safe_mode_no_drive hwInit [HWCall.rot 3, HWCall.press 2] rfl rfl (by decide)⟩

/-- C5: the measurement parser is NOT total: on the simple fraction `"1/0"`
(or the mixed fraction `"2 1/0"`) the Python code divides by zero and
raises `ZeroDivisionError` (modelled as `none`) instead of returning a
`0.0` measurement; empty, garnish and plainly unparseable text do resolve
to 0.0 as claimed. -/
theorem qty_to_oz_div_zero :
    qty_to_oz "1/0" = none ∧ qty_to_oz "2 1/0" = none ∧
    qty_to_oz "" = some 0 ∧ qty_to_oz "1 wedge" = some 0 ∧
    qty_to_oz "juice of lemon" = some 0 := by
  refine ⟨by decide, by decide, by decide, by decide, by decide⟩

/-- C7: `cleanup()` is NOT idempotent on the backend: after real-mode
hardware initialisation, the first `cleanup()` de-asserts ENABLE and
releases the GPIO, but because `_gpio_ready` is never cleared the second
`cleanup()` repeats both backend operations (writing to a pin after
`GPIO.cleanup()` errors on real hardware) instead of having no further
effect. -/
theorem cleanup_not_idempotent :
    (cleanup (runCalls hwInit [HWCall.setSafe false, HWCall.press 1]).1).2 =
      [BackendOp.output 16 true, BackendOp.cleanupAll] ∧
    (cleanup (cleanup (runCalls hwInit [HWCall.setSafe false, HWCall.press 1]).1).1).2 =
      [BackendOp.output 16 true, BackendOp.cleanupAll] ∧
    (cleanup (cleanup (runCalls hwInit [HWCall.setSafe false,
      HWCall.press 1]).1).1).2 ≠ [] ∧
    (cleanup (runCalls hwInit [HWCall.setSafe false, HWCall.press 1]).1).1.gpio_ready =
      true := by
  refine ⟨by decide, by decide, by decide, by decide⟩

/-- C8 counterexample: `rotate_to_slot` performs no range validation, so a
single call with target 12 from the initial state leaves
`current_slot = 12`, outside `[0, 12)`. -/
theorem slot_range_cex :
    (runCalls hwInit [HWCall.rot 12]).1.current_slot = 12 ∧
    ¬ ((runCalls hwInit [HWCall.rot 12]).1.current_slot < 12) := by
  refine ⟨by decide, by decide⟩

/-- Helper: the state after `_ensure_gpio` keeps the turret slot. -/
theorem ensure_gpio_slot (s : HWState) : (ensure_gpio s).1.current_slot = s.current_slot := by
  unfold ensure_gpio; split_ifs <;> rfl

/-- Helper: one API call keeps `current_slot` in `[0, 12)` provided any
rotation target is in `[0, 12)`. -/
theorem step1_slot_range (s : HWState) (c : HWCall) (hc : rotInRange c = true)
    (hs : 0 ≤ s.current_slot ∧ s.current_slot < 12) :
    0 ≤ (step1 s c).1.current_slot ∧ (step1 s c).1.current_slot < 12 := by
  cases c with
  | rot slot =>
    have hr : 0 ≤ slot ∧ slot < 12 := by
      simpa [rotInRange] using hc
    simp only [step1, rotate_to_slot]
    split_ifs with h1 h2
    · exact hs
    · exact hr
    · show 0 ≤ ({ (ensure_gpio s).1 with current_slot := slot } : HWState).current_slot ∧ _
      exact hr
  | press reps =>
    simp only [step1, press_actuator]
    split_ifs with h1
    · exact hs
    · show 0 ≤ (ensure_gpio s).1.current_slot ∧ (ensure_gpio s).1.current_slot < 12
      rw [ensure_gpio_slot]
      exact hs
  | setPins m =>
    have : (step1 s (HWCall.setPins m)).1.current_slot = s.current_slot := by
      simp only [step1, set_pin_map]
      split_ifs <;> rfl
    rw [this]; exact hs
  | setSafe b => exact hs
  | clean =>
    have : (step1 s HWCall.clean).1.current_slot = s.current_slot := by
      simp only [step1, cleanup]
      split_ifs <;> rfl
    rw [this]; exact hs

/-- Helper: the slot-range invariant is preserved by any call sequence
whose rotation targets are all in `[0, 12)`. -/
theorem runCalls_slot_range (calls : List HWCall) (s : HWState)
    (hs : 0 ≤ s.current_slot ∧ s.current_slot < 12)
    (hcalls : ∀ c ∈ calls, rotInRange c = true) :
    0 ≤ (runCalls s calls).1.current_slot ∧ (runCalls s calls).1.current_slot < 12 := by
  induction calls generalizing s with
  | nil => exact hs
  | cons c cs ih =>
    exact ih (step1 s c).1
      (step1_slot_range s c (hcalls c (List.mem_cons_self c cs)) hs)
      (fun c' h => hcalls c' (List.mem_cons_of_mem _ h))

/-- C8 (amended): `current_slot` starts at 0 ∈ [0,12), and every operation
(`rotate_to_slot` in both modes, `press_actuator`, `set_pin_map`,
`set_safe_mode`, `cleanup`) preserves membership in `[0, 12)` PROVIDED
every `rotate_to_slot` target is itself in `[0, 12)` — the code performs no
validation of its own (see the counterexample). -/
theorem slot_range_invariant (s : HWState) (calls : List HWCall)
    (hs : 0 ≤ s.current_slot ∧ s.current_slot < 12)
    (hcalls : ∀ c ∈ calls, rotInRange c = true) :
    (0 ≤ hwInit.current_slot ∧ hwInit.current_slot < 12) ∧
    (0 ≤ (runCalls s calls).1.current_slot ∧ (runCalls s calls).1.current_slot < 12) :=
  ⟨by decide, runCalls_slot_range calls s hs hcalls⟩

/-- C8 witness: a concrete in-range mixed call sequence keeps the slot in
range. -/
theorem slot_range_invariant_witness :
    (0 ≤ hwInit.current_slot ∧ hwInit.current_slot < 12) ∧
    (∀ c ∈ [HWCall.rot 11, HWCall.setSafe false, HWCall.press 2, HWCall.clean],
      rotInRange c = true) ∧
    ((0 ≤ hwInit.current_slot ∧ hwInit.current_slot < 12) ∧
     (0 ≤ (runCalls hwInit [HWCall.rot 11, HWCall.setSafe false, HWCall.press 2,
        HWCall.clean]).1.current_slot ∧
      (runCalls hwInit [HWCall.rot 11, HWCall.setSafe false, HWCall.press 2,
        HWCall.clean]).1.current_slot < 12)) :=
  ⟨by decide, by decide,
    slot_range_invariant hwInit
      [HWCall.rot 11, HWCall.setSafe false, HWCall.press 2, HWCall.clean]
      (by decide) (by decide)⟩

/-- C4: `_scale` on any ingredient list: with no positive quantity the list
is returned unchanged; otherwise, writing `m` for the minimum positive
quantity, every positive entry is multiplied by `1.5 / m` and rounded to 2
decimals (zero entries untouched, which is what `List.map (normEntry m)`
does), each scaled value is within 0.005 of the exact ratio-preserving
value, every positive result is at least 1.5, and some result equals 1.5 —
so the minimum positive quantity of the result is exactly the reference
1.5 (well within the 0.01 tolerance). -/
theorem scale_normalizes (lst : List IngredientLine) :
    ((∀ d ∈ lst, d.qty_oz ≤ 0) → scaleList lst = lst) ∧
    (∀ d0 ∈ lst, 0 < d0.qty_oz →
      ∃ m : ℚ, 0 < m ∧
        (∃ e ∈ lst, 0 < e.qty_oz ∧ e.qty_oz = m) ∧
        (∀ d ∈ lst, 0 < d.qty_oz → m ≤ d.qty_oz) ∧
        scaleList lst = lst.map (normEntry m) ∧
        (∀ d ∈ lst, 0 < d.qty_oz →
          |round2 (d.qty_oz * (3/2 / m)) - d.qty_oz * (3/2 / m)| ≤ 1/200) ∧
        (∀ e ∈ scaleList lst, 0 < e.qty_oz → 3/2 ≤ e.qty_oz) ∧
        (∃ e ∈ scaleList lst, e.qty_oz = 3/2)) := by
  constructor
  · intro hall
    have hf : lst.filter (fun d => decide (0 < d.qty_oz)) = [] := by
      rw [List.filter_eq_nil_iff]
      intro d hd
      simp only [decide_eq_true_eq]
      exact not_lt.mpr (hall d hd)
    unfold scaleList
    rw [hf]
    rfl
  · intro d0 hd0 hpos
    have hmem : d0.qty_oz ∈ (lst.filter fun d => decide (0 < d.qty_oz)).map
        (fun d => d.qty_oz) :=
      List.mem_map.mpr ⟨d0, List.mem_filter.mpr ⟨hd0, by simpa using hpos⟩, rfl⟩
    cases hL : (lst.filter fun d => decide (0 < d.qty_oz)).map (fun d => d.qty_oz) with
    | nil => rw [hL] at hmem; cases hmem
    | cons q qs =>
      have hchar : ∀ x : ℚ, x ∈ q :: qs ↔ ∃ e ∈ lst, 0 < e.qty_oz ∧ e.qty_oz = x := by
        intro x
        rw [← hL]
        constructor
        · intro hx
          obtain ⟨e, he, hex⟩ := List.mem_map.mp hx
          have hf := List.mem_filter.mp he
          exact ⟨e, hf.1, by simpa using hf.2, hex⟩
        · rintro ⟨e, he, hepos, rfl⟩
          exact List.mem_map.mpr ⟨e, List.mem_filter.mpr ⟨he, by simpa using hepos⟩, rfl⟩
      have hmmem : listMin q qs ∈ q :: qs := by
        rcases listMin_mem q qs with h | h
        · rw [h]; exact List.mem_cons_self _ _
        · exact List.mem_cons_of_mem _ h
      obtain ⟨e0, he0, he0pos, he0m⟩ := (hchar (listMin q qs)).mp hmmem
      have hmpos : 0 < listMin q qs := he0m ▸ he0pos
      have hm0 : listMin q qs ≠ 0 := ne_of_gt hmpos
      have hmle : ∀ d ∈ lst, 0 < d.qty_oz → listMin q qs ≤ d.qty_oz := by
        intro d hd hdpos
        have hdin : d.qty_oz ∈ q :: qs := (hchar d.qty_oz).mpr ⟨d, hd, hdpos, rfl⟩
        rcases List.mem_cons.mp hdin with h | h
        · rw [h]; exact listMin_le_init q qs
        · exact listMin_le_mem _ _ _ h
      have hmap : scaleList lst = lst.map (normEntry (listMin q qs)) := by
        unfold scaleList
        rw [hL]
      have hm32 : listMin q qs * (3/2 / listMin q qs) = 3/2 := by
        rw [mul_comm]; exact div_mul_cancel₀ _ hm0
      refine ⟨listMin q qs, hmpos, ⟨e0, he0, he0pos, he0m⟩, hmle, hmap,
        fun d _ _ => round2_err _, ?_, ?_⟩
      · intro e he hepos
        rw [hmap] at he
        obtain ⟨d, hd, rfl⟩ := List.mem_map.mp he
        by_cases hdpos : 0 < d.qty_oz
        · have h1 : normEntry (listMin q qs) d =
              { d with qty_oz := round2 (d.qty_oz * (3/2 / listMin q qs)) } := by
            unfold normEntry; rw [if_pos hdpos]
          rw [h1]
          show 3/2 ≤ round2 (d.qty_oz * (3/2 / listMin q qs))
          have hge : 3/2 ≤ d.qty_oz * (3/2 / listMin q qs) := by
            have hfac : (0:ℚ) < 3/2 / listMin q qs := by positivity
            calc (3:ℚ)/2 = listMin q qs * (3/2 / listMin q qs) := hm32.symm
            _ ≤ d.qty_oz * (3/2 / listMin q qs) :=
              mul_le_mul_of_nonneg_right (hmle d hd hdpos) (le_of_lt hfac)
          calc (3:ℚ)/2 = round2 (3/2) := round2_three_half.symm
          _ ≤ round2 (d.qty_oz * (3/2 / listMin q qs)) := round2_mono hge
        · have h1 : normEntry (listMin q qs) d = d := by
            unfold normEntry; rw [if_neg hdpos]
          rw [h1] at hepos
          exact absurd hepos hdpos
      · rw [hmap]
        refine ⟨normEntry (listMin q qs) e0, List.mem_map.mpr ⟨e0, he0, rfl⟩, ?_⟩
        have h1 : normEntry (listMin q qs) e0 =
            { e0 with qty_oz := round2 (e0.qty_oz * (3/2 / listMin q qs)) } := by
          unfold normEntry; rw [if_pos he0pos]
        rw [h1]
        show round2 (e0.qty_oz * (3/2 / listMin q qs)) = 3/2
        rw [he0m, hm32]
        exact round2_three_half

/-- C4 witness: the end-to-end example list (gin 2.0, vermouth 0.5) has a
positive entry, and the normalization contract instantiates on it. -/
theorem scale_normalizes_witness :
    (⟨"gin", 2, "2 oz"⟩ : IngredientLine) ∈ ginRecipe ∧
    (0:ℚ) < 2 ∧
    (∃ m : ℚ, 0 < m ∧
      (∃ e ∈ ginRecipe, 0 < e.qty_oz ∧ e.qty_oz = m) ∧
      (∀ d ∈ ginRecipe, 0 < d.qty_oz → m ≤ d.qty_oz) ∧
      scaleList ginRecipe = ginRecipe.map (normEntry m) ∧
      (∀ d ∈ ginRecipe, 0 < d.qty_oz →
        |round2 (d.qty_oz * (3/2 / m)) - d.qty_oz * (3/2 / m)| ≤ 1/200) ∧
      (∀ e ∈ scaleList ginRecipe, 0 < e.qty_oz → 3/2 ≤ e.qty_oz) ∧
      (∃ e ∈ scaleList ginRecipe, e.qty_oz = 3/2)) :=
  ⟨by simp [ginRecipe], by norm_num,
    (scale_normalizes ginRecipe).2 ⟨"gin", 2, "2 oz"⟩ (by simp [ginRecipe]) (by norm_num)⟩

/-- C6: `scale_for_slots`: with no slot liquid (no entry both occupying a
slot and positive) the ingredients are returned unchanged; otherwise,
writing `anchor` for the largest slot-liquid quantity, the result is the
per-entry map `slotScaled`: every positive entry is multiplied by
`slotTarget shot anchor / anchor` (where `slotTarget` is
`nearest_multiple anchor shot`, forced to `shot` when that is 0), slot
entries are additionally snapped with `nearest_multiple`, non-slot entries
are not quantized, everything is rounded to 2 decimals and non-positive
entries are untouched. -/
theorem scale_for_slots_correct (items : List IngredientLine) (cfg : BottleConfig) :
    ((∀ d ∈ items, some d.item ∈ cfg.slots → d.qty_oz ≤ 0) →
      scale_for_slots items cfg = items) ∧
    (∀ d0 ∈ items, some d0.item ∈ cfg.slots → 0 < d0.qty_oz →
      ∃ anchor : ℚ,
        (∃ a ∈ items, some a.item ∈ cfg.slots ∧ 0 < a.qty_oz ∧ a.qty_oz = anchor) ∧
        (∀ d ∈ items, some d.item ∈ cfg.slots → 0 < d.qty_oz → d.qty_oz ≤ anchor) ∧
        scale_for_slots items cfg =
          items.map (slotScaled cfg.slots cfg.shot_size anchor)) := by
  constructor
  · intro hall
    have hf : items.filter
        (fun d => decide (some d.item ∈ cfg.slots) && decide (0 < d.qty_oz)) = [] := by
      rw [List.filter_eq_nil_iff]
      intro d hd
      simp only [Bool.and_eq_true, decide_eq_true_eq, not_and]
      intro hslot
      exact not_lt.mpr (hall d hd hslot)
    unfold scale_for_slots
    rw [hf]
  · intro d0 hd0 hslot0 hpos0
    have hmem : d0 ∈ items.filter
        (fun d => decide (some d.item ∈ cfg.slots) && decide (0 < d.qty_oz)) :=
      List.mem_filter.mpr ⟨hd0, by simp [hslot0, hpos0]⟩
    cases hL : items.filter
        (fun d => decide (some d.item ∈ cfg.slots) && decide (0 < d.qty_oz)) with
    | nil => rw [hL] at hmem; cases hmem
    | cons a rest =>
      have hchar : ∀ e : IngredientLine, e ∈ a :: rest ↔
          e ∈ items ∧ some e.item ∈ cfg.slots ∧ 0 < e.qty_oz := by
        intro e
        rw [← hL]
        constructor
        · intro he
          have hf := List.mem_filter.mp he
          have hf2 : some e.item ∈ cfg.slots ∧ 0 < e.qty_oz := by simpa using hf.2
          exact ⟨hf.1, hf2.1, hf2.2⟩
        · rintro ⟨he, hs, hp⟩
          exact List.mem_filter.mpr ⟨he, by simp [hs, hp]⟩
      have hamem : a ∈ items ∧ some a.item ∈ cfg.slots ∧ 0 < a.qty_oz :=
        (hchar a).mp (List.mem_cons_self a rest)
      refine ⟨listMax a.qty_oz (rest.map fun d => d.qty_oz), ?_, ?_, ?_⟩
      · rcases listMax_mem a.qty_oz (rest.map fun d => d.qty_oz) with h | h
        · exact ⟨a, hamem.1, hamem.2.1, hamem.2.2, h.symm⟩
        · obtain ⟨e, he, hee⟩ := List.mem_map.mp h
          have hem := (hchar e).mp (List.mem_cons_of_mem a he)
          exact ⟨e, hem.1, hem.2.1, hem.2.2, hee⟩
      · intro d hd hds hdp
        rcases List.mem_cons.mp ((hchar d).mpr ⟨hd, hds, hdp⟩) with h | h
        · rw [h]; exact listMax_init_le _ _
        · exact listMax_mem_le _ _ _ (List.mem_map.mpr ⟨d, h, rfl⟩)
      · unfold scale_for_slots
        rw [hL]

/-- C6 witness: the scaled end-to-end example (gin 6.0 in a slot) has a
slot liquid, and the slot-aware rescale contract instantiates on it. -/
theorem scale_for_slots_correct_witness :
    (⟨"gin", 6, "2 oz"⟩ : IngredientLine) ∈ ginRecipeScaled ∧
    (some "gin" : Option String) ∈ ginConfig.slots ∧ (0:ℚ) < 6 ∧
    (∃ anchor : ℚ,
      (∃ a ∈ ginRecipeScaled, some a.item ∈ ginConfig.slots ∧ 0 < a.qty_oz ∧
        a.qty_oz = anchor) ∧
      (∀ d ∈ ginRecipeScaled, some d.item ∈ ginConfig.slots → 0 < d.qty_oz →
        d.qty_oz ≤ anchor) ∧
      scale_for_slots ginRecipeScaled ginConfig =
        ginRecipeScaled.map (slotScaled ginConfig.slots ginConfig.shot_size anchor)) :=
  ⟨by simp [ginRecipeScaled], by simp [ginConfig], by norm_num,
    (scale_for_slots_correct ginRecipeScaled ginConfig).2 ⟨"gin", 6, "2 oz"⟩
      (by simp [ginRecipeScaled]) (by simp [ginConfig]) (by norm_num)⟩

/-- Helper: characterization of `_avail`, under the `load_config` invariant
that neither slots nor pantry contain an empty name. -/
theorem avail_iff (item : String) (cfg : BottleConfig)
    (hs0 : (some "" : Option String) ∉ cfg.slots) (hp0 : "" ∉ cfg.pantry) :
    avail item cfg = true ↔
      some (pyLower item) ∈ cfg.slots ∨ pyLower item ∈ cfg.pantry ∨
        ∃ t, cfg.substitutions.lookup (pyLower item) = some t ∧
          (some t ∈ cfg.slots ∨ t ∈ cfg.pantry) := by
  by_cases h1 : some (pyLower item) ∈ cfg.slots ∨ pyLower item ∈ cfg.pantry
  · constructor
    · intro _; tauto
    · intro _
      simp only [avail]
      rw [if_pos h1]
  · cases hl : cfg.substitutions.lookup (pyLower item) with
    | none =>
      simp only [avail]
      rw [if_neg h1, hl]
      constructor
      · intro h; cases h
      · rintro (h | h | ⟨t, ht, _⟩)
        · exact absurd (Or.inl h) h1
        · exact absurd (Or.inr h) h1
        · cases ht
    | some t =>
      simp only [avail]
      rw [if_neg h1, hl]
      simp only [Bool.and_eq_true, Bool.or_eq_true, decide_eq_true_eq]
      constructor
      · rintro ⟨-, h⟩
        exact Or.inr (Or.inr ⟨t, rfl, h⟩)
      · rintro (h | h | ⟨t', ht', h⟩)
        · exact absurd (Or.inl h) h1
        · exact absurd (Or.inr h) h1
        · have htt : t' = t := (Option.some.inj ht').symm
          subst htt
          refine ⟨?_, h⟩
          rintro rfl
          rcases h with h | h
          · exact hs0 h
          · exact hp0 h

/-- C9: `_avail` is true exactly when the lowercased item is in a slot or
the pantry, or a single substitution hop lands on a name that is itself in
a slot or the pantry (a second hop is never followed: the target is looked
up directly in slots/pantry only); and for an item available only through
a substitution into the pantry, `_avail` is true while `_slot_for` is
`none`.  (The config invariant from `load_config` — no empty name in
slots or pantry — is assumed.) -/
theorem avail_slot_resolution (item : String) (cfg : BottleConfig)
    (hs0 : (some "" : Option String) ∉ cfg.slots) (hp0 : "" ∉ cfg.pantry) :
    (avail item cfg = true ↔
      some (pyLower item) ∈ cfg.slots ∨ pyLower item ∈ cfg.pantry ∨
        ∃ t, cfg.substitutions.lookup (pyLower item) = some t ∧
          (some t ∈ cfg.slots ∨ t ∈ cfg.pantry)) ∧
    (∀ t, some (pyLower item) ∉ cfg.slots → pyLower item ∉ cfg.pantry →
      cfg.substitutions.lookup (pyLower item) = some t →
      some t ∉ cfg.slots → t ∈ cfg.pantry →
      avail item cfg = true ∧ slot_for item cfg = none) := by
  refine ⟨avail_iff item cfg hs0 hp0, ?_⟩
  intro t hs1 hp1 hl hts htp
  constructor
  · exact (avail_iff item cfg hs0 hp0).mpr (Or.inr (Or.inr ⟨t, hl, Or.inr htp⟩))
  · simp [slot_for, hs1, hl, hts]

/-- C9 witness: `dry vermouth` resolves through the substitution to the
pantry item `vermouth`: available, but with no slot. -/
theorem avail_slot_resolution_witness :
    (some "" : Option String) ∉ subConfig.slots ∧ "" ∉ subConfig.pantry ∧
    (avail "Dry Vermouth" subConfig = true ∧ slot_for "Dry Vermouth" subConfig = none) :=
  ⟨by decide, by decide,
    (avail_slot_resolution "Dry Vermouth" subConfig (by decide) (by decide)).2
      "vermouth" (by decide) (by decide) (by decide) (by decide) (by decide)⟩

/-- C10: for every slot-resolved ingredient, the dispense loop presses the
actuator `roundHalfEven qty_oz` times — Python's half-to-even `round` of
the quantity in ounces, not in shot units — so 2.5 oz gives 2 presses,
3.5 oz gives 4 presses, and any quantity in [0, 0.5) gives 0 presses. -/
theorem press_count_half_even (cfg : BottleConfig) (idx : Nat) (d : IngredientLine)
    (rest : List IngredientLine) (s : Nat)
    (ha : avail d.item cfg = true) (hs : slot_for d.item cfg = some s) :
    dispenseFrom cfg idx (d :: rest) =
      (if idx = 0 then Ev.pulling d.item else Ev.adding d.item) ::
        Ev.rotate s :: Ev.dispensing d.qty_oz :: Ev.press (roundHalfEven d.qty_oz) ::
        dispenseFrom cfg (idx + 1) rest ∧
    roundHalfEven (5/2) = 2 ∧ roundHalfEven (7/2) = 4 ∧
    (∀ q : ℚ, 0 ≤ q → q < 1/2 → roundHalfEven q = 0) := by
  refine ⟨?_, ?_, ?_, fun q h0 h1 => rhe_small h0 h1⟩
  · simp [dispenseFrom, ha, hs]
  · exact rhe_eval_tie_even (5/2) 2 (by norm_num) (by norm_num)
  · rw [rhe_eval_tie_odd (7/2) 3 (by norm_num) (by norm_num)]
    decide

/-- C10 witness: dispensing a 2.5 oz slot ingredient presses twice
(half rounds to the even count). -/
theorem press_count_half_even_witness :
    avail "gin" ginConfig = true ∧ slot_for "gin" ginConfig = some 0 ∧
    (dispenseFrom ginConfig 0 [⟨"gin", 5/2, ""⟩] =
        Ev.pulling "gin" :: Ev.rotate 0 :: Ev.dispensing (5/2) ::
          Ev.press (roundHalfEven (5/2)) :: dispenseFrom ginConfig 1 [] ∧
      roundHalfEven (5/2) = 2 ∧ roundHalfEven (7/2) = 4 ∧
      (∀ q : ℚ, 0 ≤ q → q < 1/2 → roundHalfEven q = 0)) :=
  ⟨by decide, by decide,
    press_count_half_even ginConfig 0 ⟨"gin", 5/2, ""⟩ [] 0 (by decide) (by decide)⟩

end BarRobot
